import Mathlib

/-!
Shallow embedding of the Receptsamling recipe repository.

The embedded code is `app/gcp_storage.py` (the durable, Firestore + Cloud
Storage backed implementation `FirestoreRecipeStorage`), the domain object
`app/models.py` (`Recipe`), the in-memory test double
`tests/test_app.py` (`InMemoryRecipeStorage`), and the call shape used by
the route handlers in `app/__init__.py`.

Strings are modelled by Lean `String` / `List Char`.  The two backing
stores are modelled explicitly: the document store is an association list
from document id to document fields, the blob store is the list of blob
names it currently holds.  Server-side nondeterminism (Firestore document
ids, `uuid4` hex strings, `SERVER_TIMESTAMP`) is modelled by counters in
the store state, and environment facts (bucket configured?, signing
credentials available?, does a blob upload succeed?) by an explicit
environment record.  Fallible operations return `Except Err` together
with the post-state.
-/

namespace Receptsamling

/-! ## Python string primitives used by `_parse_ingredients`

`str.splitlines` splits on the Python line-boundary characters
(`\n`, `\r`, `\r\n`, `\x0b`, `\x0c`, `\x1c`, `\x1d`, `\x1e`, `\x85`,
` `, ` `); `str.strip` removes leading and trailing Unicode
whitespace. -/

/-- The line-boundary characters recognised by Python `str.splitlines`. -/
def isLineBoundary (c : Char) : Bool :=
  c = '\n' || c = '\r' || c = '\x0b' || c = '\x0c' ||
  c = '\x1c' || c = '\x1d' || c = '\x1e' || c = '\u0085' ||
  c = ' ' || c = ' '

/-- The characters removed by Python `str.strip` (Unicode whitespace). -/
def isPySpace (c : Char) : Bool :=
  c = ' ' || c = '\t' || c = '\n' || c = '\r' || c = '\x0b' || c = '\x0c' ||
  c = '\x1c' || c = '\x1d' || c = '\x1e' || c = '\x1f' || c = '\u0085' ||
  c = ' ' || c = ' ' ||
  (' ' ≤ c && c ≤ ' ') ||
  c = ' ' || c = ' ' || c = ' ' || c = ' ' || c = '　'

/-- Worker for `splitlines`: `acc` is the current line (reversed) and
`afterCR` records whether the previous character was a `\r` whose line
break was already emitted, so that a following `\n` is swallowed — a
`\r\n` pair counts as a single line boundary. -/
def splitlinesAux : List Char → List Char → Bool → List (List Char)
  | [], acc, _ => if acc.isEmpty then [] else [acc.reverse]
  | c :: cs, acc, afterCR =>
    if afterCR && c = '\n' then
      splitlinesAux cs acc false
    else if isLineBoundary c then
      acc.reverse :: splitlinesAux cs [] (c = '\r')
    else
      splitlinesAux cs (c :: acc) false

/-- Python `str.splitlines` on a character list. -/
def splitlines (s : List Char) : List (List Char) :=
  splitlinesAux s [] false

/-- Python `str.strip` on a character list. -/
def strip (l : List Char) : List Char :=
  ((l.dropWhile isPySpace).reverse.dropWhile isPySpace).reverse

/-- `_parse_ingredients` from `app/gcp_storage.py` at the character level:
`[line.strip() for line in ingredients_text.splitlines() if line.strip()]`. -/
def parseIngredientsChars (s : List Char) : List (List Char) :=
  ((splitlines s).map strip).filter (fun l => !l.isEmpty)

/-- `_parse_ingredients(ingredients_text)` from `app/gcp_storage.py`. -/
def _parse_ingredients (ingredients_text : String) : List String :=
  (parseIngredientsChars ingredients_text.data).map String.mk

/-- Python `"\n".join` on character lists. -/
def joinNL : List (List Char) → List Char
  | [] => []
  | [a] => a
  | a :: rest => a ++ '\n' :: joinNL rest

/-- `"\n".join(recipe.ingredients)` as done by the edit form in
`app/__init__.py`. -/
def joinLines (ls : List String) : String :=
  String.mk (joinNL (ls.map String.data))

/-! ## Data model -/

/-- An uploaded image file (`werkzeug.datastructures.FileStorage`): the
route handler hands the repository either `None` or a file object whose
`filename` may still be empty (no file chosen in the form). -/
structure Image where
  filename : String
  content : String
  mimetype : String
deriving DecidableEq, Repr

/-- The `ingredients` field of a persisted Firestore document as read
back by `_doc_to_recipe`, which guards with `isinstance` checks: the
value may be a string, a list, or something else entirely. -/
inductive IngredientsField where
  | strVal (s : String)
  | listVal (l : List String)
  | otherVal
deriving DecidableEq, Repr

/-- A Firestore document as written by `add_recipe` / `update_recipe`
(persisted layout: title, description, ingredients, instructions,
image_url, image_blob_name, created_at). `created_at` is `none` when the
stored value is not a datetime. -/
structure Doc where
  title : String
  description : String
  ingredients : IngredientsField
  instructions : String
  image_url : Option String
  image_blob_name : Option String
  created_at : Option Nat
deriving DecidableEq, Repr

/-- The domain object from `app/models.py`. -/
structure Recipe where
  id : String
  title : String
  description : String
  ingredients : List String
  instructions : String
  image_url : Option String := none
  created_at : Option Nat := none
deriving DecidableEq, Repr

/-- The exceptions the storage layer can raise: `KeyError` for a missing
recipe id, `RuntimeError` when an image is supplied but no bucket is
configured, an upload error from the Cloud Storage client, and Python's
`TypeError` for a call with an unexpected keyword argument. -/
inductive Err where
  | notFound
  | storageUnavailable
  | uploadFailed
  | typeError
deriving DecidableEq, Repr

/-- Environment facts fixed for the duration of one call: whether a
bucket is configured (`self._bucket`), whether signing credentials are
available (`generate_signed_url` succeeds), and whether a blob upload
network call succeeds. -/
structure StoreEnv where
  bucketConfigured : Bool
  canSign : Bool
  uploadOk : Bool
deriving DecidableEq, Repr

/-- The state of the two backing stores.  `docs` is the Firestore
collection (newest document first, as `add_recipe` prepends), `blobs`
the names present in the Cloud Storage bucket.  `nextDocId`, `nextUuid`
and `clock` model Firestore id generation, `uuid4().hex` and
`SERVER_TIMESTAMP`. -/
structure Store where
  docs : List (String × Doc)
  blobs : List String
  nextDocId : Nat
  nextUuid : Nat
  clock : Nat
deriving DecidableEq, Repr

/-! ## Association-list primitives for the document collection -/

/-- Fetch a document snapshot by id (`doc_ref.get()`). -/
def lookupDoc : List (String × Doc) → String → Option Doc
  | [], _ => none
  | p :: rest, i => if p.1 = i then some p.2 else lookupDoc rest i

/-- Delete a document (`doc_ref.delete()`). -/
def removeDoc : List (String × Doc) → String → List (String × Doc)
  | [], _ => []
  | p :: rest, i => if p.1 = i then removeDoc rest i else p :: removeDoc rest i

/-- Overwrite the fields of the document with the given id
(`doc_ref.update(update_doc)`; `created_at` is preserved by the caller
because the update dict does not mention it). -/
def setDocFields : List (String × Doc) → String → Doc → List (String × Doc)
  | [], _, _ => []
  | p :: rest, i, d => if p.1 = i then (p.1, d) :: setDocFields rest i d
                       else p :: setDocFields rest i d

/-- `findDoc s recipe_id` is the snapshot for `recipe_id`, `none` when
`snapshot.exists` is false. -/
def findDoc (s : Store) (recipe_id : String) : Option Doc :=
  lookupDoc s.docs recipe_id

/-! ## FirestoreRecipeStorage (`app/gcp_storage.py`) -/

/-- `werkzeug.utils.secure_filename`, an external sanitiser; its exact
output never matters to the repository logic, so it is modelled as the
identity on the filename. -/
def secure_filename (filename : String) : String := filename

/-- `_build_blob_name`: `recipes/<uuid4().hex>_<secure_filename(name)>`,
with the fresh hex string modelled by the `nextUuid` counter. -/
def _build_blob_name (s : Store) (filename : String) : String :=
  "recipes/" ++ toString s.nextUuid ++ "_" ++ secure_filename filename

/-- `_get_image_url(blob)`: a v4 signed URL (7-day expiration) when the
credentials can sign, otherwise the fallback `blob.public_url`. -/
def _get_image_url (env : StoreEnv) (blob_name : String) : String :=
  if env.canSign then "signed-v4:" ++ blob_name
  else "public:" ++ blob_name

/-- `_delete_blob_if_exists(blob_name)`: returns immediately when the
name is falsy (None or empty) or no bucket is configured; otherwise
deletes the blob, swallowing the NotFound raised when it is already
absent (`List.erase` of an absent name is a no-op). -/
def _delete_blob_if_exists (env : StoreEnv) (s : Store) (blob_name : Option String) :
    Store :=
  match blob_name with
  | none => s
  | some n =>
    if n = "" || !env.bucketConfigured then s
    else { s with blobs := s.blobs.erase n }

/-- `_doc_to_recipe(doc_id, data)`. -/
def _doc_to_recipe (env : StoreEnv) (doc_id : String) (data : Doc) : Recipe :=
  let parsed_ingredients :=
    match data.ingredients with
    | .strVal s => _parse_ingredients s
    | .listVal l => l
    | .otherVal => []
  let image_url :=
    match data.image_blob_name with
    | some n =>
      if n ≠ "" && env.bucketConfigured then some (_get_image_url env n)
      else data.image_url
    | none => data.image_url
  { id := doc_id
    title := data.title
    description := data.description
    ingredients := parsed_ingredients
    instructions := data.instructions
    image_url := image_url
    created_at := data.created_at }

/-- Truthiness of `image and image.filename` in Python. -/
def hasImagePayload : Option Image → Bool
  | some img => !img.filename.isEmpty
  | none => false

/-- The image-handling prefix of `add_recipe`: when a payload is
present, require a configured bucket, upload the blob (which may fail),
and produce the `(image_url, blob_name)` pair for the document; on
failure the store is untouched (the exception propagates before
`doc_ref.set`). -/
def addImageStep (env : StoreEnv) (s : Store) (image : Option Image) :
    Except Err (Option String × Option String × Store) :=
  match image with
  | some img =>
    if !img.filename.isEmpty then
      if !env.bucketConfigured then .error .storageUnavailable
      else if !env.uploadOk then .error .uploadFailed
      else
        let blob_name := _build_blob_name s img.filename
        let s1 := { s with blobs := blob_name :: s.blobs, nextUuid := s.nextUuid + 1 }
        .ok (some (_get_image_url env blob_name), some blob_name, s1)
    else .ok (none, none, s)
  | none => .ok (none, none, s)

/-- `add_recipe`: parse ingredients, run the image step, `doc_ref.set`
the document (Firestore assigns the id and the server timestamp), read
the snapshot back and convert it.  Result together with the post-state
of the two stores. -/
def add_recipe (env : StoreEnv) (s : Store)
    (title description ingredients_text instructions : String)
    (image : Option Image) : Except Err Recipe × Store :=
  let ingredients := _parse_ingredients ingredients_text
  match addImageStep env s image with
  | .error e => (.error e, s)
  | .ok (image_url, blob_name, s1) =>
    let docId := "doc" ++ toString s1.nextDocId
    let doc : Doc :=
      { title := title
        description := description
        ingredients := .listVal ingredients
        instructions := instructions
        image_url := image_url
        image_blob_name := blob_name
        created_at := some s1.clock }
    let s2 := { s1 with docs := (docId, doc) :: s1.docs
                        nextDocId := s1.nextDocId + 1
                        clock := s1.clock + 1 }
    (.ok (_doc_to_recipe env docId doc), s2)

/-- `get_recipe(recipe_id)`: raises KeyError when the snapshot does not
exist, otherwise converts it.  Read-only. -/
def get_recipe (env : StoreEnv) (s : Store) (recipe_id : String) : Except Err Recipe :=
  match findDoc s recipe_id with
  | none => .error .notFound
  | some data => .ok (_doc_to_recipe env recipe_id data)

/-- The image-handling branches of `update_recipe`, three mutually
exclusive cases on `image and image.filename` / `remove_image`: a new
payload (delete the old blob if truthy, then upload the new one, which
may fail), an explicit removal (delete the blob idempotently, null both
fields), or neither (carry the current values over).  On failure the
error carries the state at the point the exception was raised. -/
def updateImageStep (env : StoreEnv) (s : Store)
    (current_image_url current_blob_name : Option String)
    (image : Option Image) (remove_image : Bool) :
    Except (Err × Store) (Option String × Option String × Store) :=
  match image with
  | some img =>
    if !img.filename.isEmpty then
      if !env.bucketConfigured then .error (.storageUnavailable, s)
      else
        let s1 :=
          match current_blob_name with
          | some n => if n ≠ "" then _delete_blob_if_exists env s (some n) else s
          | none => s
        if !env.uploadOk then .error (.uploadFailed, s1)
        else
          let new_blob_name := _build_blob_name s1 img.filename
          let s2 := { s1 with blobs := new_blob_name :: s1.blobs
                              nextUuid := s1.nextUuid + 1 }
          .ok (some (_get_image_url env new_blob_name), some new_blob_name, s2)
    else if remove_image then
      .ok (none, none, _delete_blob_if_exists env s current_blob_name)
    else
      .ok (current_image_url, current_blob_name, s)
  | none =>
    if remove_image then
      .ok (none, none, _delete_blob_if_exists env s current_blob_name)
    else
      .ok (current_image_url, current_blob_name, s)

/-- `update_recipe(recipe_id, ...)`: KeyError when the snapshot does
not exist, then the three image branches, then `doc_ref.update` with a
dict that never mentions `created_at` (so it is preserved), then the
snapshot is read back and converted. -/
def update_recipe (env : StoreEnv) (s : Store) (recipe_id : String)
    (title description ingredients_text instructions : String)
    (image : Option Image) (remove_image : Bool) : Except Err Recipe × Store :=
  match findDoc s recipe_id with
  | none => (.error .notFound, s)
  | some current_data =>
    let ingredients := _parse_ingredients ingredients_text
    match updateImageStep env s current_data.image_url current_data.image_blob_name
        image remove_image with
    | .error (e, sErr) => (.error e, sErr)
    | .ok (new_image_url, new_blob_name, s1) =>
      let doc : Doc :=
        { title := title
          description := description
          ingredients := .listVal ingredients
          instructions := instructions
          image_url := new_image_url
          image_blob_name := new_blob_name
          created_at := current_data.created_at }
      let s2 := { s1 with docs := setDocFields s1.docs recipe_id doc }
      (.ok (_doc_to_recipe env recipe_id doc), s2)

/-! ## delete_recipe, with an execution trace

`delete_recipe` is straight-line code whose claimed property is about
the order of its backend calls, so its embedding also returns the list
of backend calls it performed, in order. -/

/-- One backend call made by `delete_recipe`. -/
inductive Event where
  | getDoc (recipe_id : String)
  | deleteBlob (blob_name : String)
  | deleteDoc (recipe_id : String)
deriving DecidableEq, Repr

/-- Does `T.deleteBlob` apply to an event. -/
def Event.isDeleteBlobCall : Event → Bool
  | .deleteBlob _ => true
  | _ => false

/-- Does `T.deleteDoc` apply to an event. -/
def Event.isDeleteDocCall : Event → Bool
  | .deleteDoc _ => true
  | _ => false

/-- The blob-deletion calls performed by `_delete_blob_if_exists`: one
`blob.delete()` exactly when the name is truthy and a bucket is
configured. -/
def deleteBlobEvents (env : StoreEnv) (blob_name : Option String) : List Event :=
  match blob_name with
  | none => []
  | some n => if n = "" || !env.bucketConfigured then [] else [.deleteBlob n]

/-- `delete_recipe(recipe_id)`: fetch the snapshot (KeyError when it
does not exist), delete the blob idempotently, then delete the
document.  Returns the result, the post-state and the backend-call
trace. -/
def delete_recipe (env : StoreEnv) (s : Store) (recipe_id : String) :
    Except Err Unit × Store × List Event :=
  match findDoc s recipe_id with
  | none => (.error .notFound, s, [.getDoc recipe_id])
  | some data =>
    let blob_name := data.image_blob_name
    let s1 := _delete_blob_if_exists env s blob_name
    let s2 := { s1 with docs := removeDoc s1.docs recipe_id }
    (.ok (), s2, .getDoc recipe_id :: (deleteBlobEvents env blob_name ++ [.deleteDoc recipe_id]))

/-! ## list_recipes -/

/-- Sort key for the Firestore query `order_by("created_at", DESCENDING)`. -/
def createdKey (p : String × Doc) : Nat :=
  (p.2.created_at).getD 0

/-- Insert into a created-at-descending list. -/
def insertByCreatedDesc (p : String × Doc) :
    List (String × Doc) → List (String × Doc)
  | [] => [p]
  | q :: rest =>
    if createdKey q ≤ createdKey p then p :: q :: rest
    else q :: insertByCreatedDesc p rest

/-- The documents ordered by `created_at` descending. -/
def sortDocsDesc : List (String × Doc) → List (String × Doc)
  | [] => []
  | p :: rest => insertByCreatedDesc p (sortDocsDesc rest)

/-- `list_recipes()`: stream the descending-by-created_at query and
convert every document. -/
def list_recipes (env : StoreEnv) (s : Store) : List Recipe :=
  (sortDocsDesc s.docs).map (fun p => _doc_to_recipe env p.1 p.2)

/-! ## InMemoryRecipeStorage (`tests/test_app.py`) and the route call

The web layer in `app/__init__.py` calls
`storage_backend.update_recipe(recipe_id, title=..., description=...,
ingredients_text=..., instructions=..., image=image,
remove_image=remove_image)` — the `remove_image` keyword is always
passed.  A Python call is therefore modelled as a record that also
says whether the `remove_image` keyword was supplied; a callee whose
signature lacks the parameter raises `TypeError` on such a call. -/

/-- The state of the in-memory test double: a list of `Recipe` objects
plus counters modelling `uuid4().hex` and `datetime.utcnow()`. -/
structure MemStore where
  recipes : List Recipe
  nextId : Nat
  clock : Nat
deriving DecidableEq, Repr

/-- An invocation of `update_recipe` as built by the route handler:
`remove_image = some b` means the keyword was passed with value `b`,
`none` means it was not passed at all. -/
structure UpdateCall where
  recipe_id : String
  title : String
  description : String
  ingredients_text : String
  instructions : String
  image : Option Image
  remove_image : Option Bool
deriving DecidableEq, Repr

/-- The call the route handler `update_recipe` in `app/__init__.py`
makes: every field bound, `remove_image` always passed as a keyword. -/
def routeUpdateCall (recipe_id title description ingredients_text instructions : String)
    (image : Option Image) (remove_image : Bool) : UpdateCall :=
  { recipe_id := recipe_id
    title := title
    description := description
    ingredients_text := ingredients_text
    instructions := instructions
    image := image
    remove_image := some remove_image }

/-- `InMemoryRecipeStorage.get_recipe`: linear scan, KeyError when
absent. -/
def mem_get_recipe (s : MemStore) (recipe_id : String) : Except Err Recipe :=
  match s.recipes.find? (fun r => r.id == recipe_id) with
  | some r => .ok r
  | none => .error .notFound

/-- `InMemoryRecipeStorage.add_recipe`. -/
def mem_add_recipe (s : MemStore)
    (title description ingredients_text instructions : String)
    (image : Option Image) : Recipe × MemStore :=
  let recipe : Recipe :=
    { id := "mem" ++ toString s.nextId
      title := title
      description := description
      ingredients := _parse_ingredients ingredients_text
      instructions := instructions
      image_url := none
      created_at := some s.clock }
  (recipe, { recipes := s.recipes ++ [recipe], nextId := s.nextId + 1,
             clock := s.clock + 1 })

/-- `InMemoryRecipeStorage.update_recipe` invoked with the call record:
its Python signature is `(self, recipe_id, *, title, description,
ingredients_text, instructions, image)` — there is no `remove_image`
parameter and no `**kwargs`, so a call that passes the `remove_image`
keyword raises `TypeError` before the body runs. -/
def mem_update_recipe (s : MemStore) (c : UpdateCall) : Except Err Recipe × MemStore :=
  match c.remove_image with
  | some _ => (.error .typeError, s)
  | none =>
    match s.recipes.find? (fun r => r.id == c.recipe_id) with
    | none => (.error .notFound, s)
    | some r =>
      let r' := { r with title := c.title
                         description := c.description
                         ingredients := _parse_ingredients c.ingredients_text
                         instructions := c.instructions }
      let updated := s.recipes.map (fun q => if q.id == c.recipe_id then r' else q)
      (.ok r', { s with recipes := updated })

/-- `FirestoreRecipeStorage.update_recipe` invoked with the same call
record: its signature declares `remove_image: bool = False`, so the
keyword is accepted and defaults to `False` when absent. -/
def firestore_update_call (env : StoreEnv) (s : Store) (c : UpdateCall) :
    Except Err Recipe × Store :=
  update_recipe env s c.recipe_id c.title c.description c.ingredients_text
    c.instructions c.image (c.remove_image.getD false)

/-! ## Concrete fixtures used by witnesses -/

/-- Environment with a bucket, signing credentials and working uploads. -/
def envAll : StoreEnv := { bucketConfigured := true, canSign := true, uploadOk := true }

/-- Environment without a configured bucket (`GCS_BUCKET` unset). -/
def envNoBucket : StoreEnv := { bucketConfigured := false, canSign := false, uploadOk := true }

/-- A fresh, empty pair of backing stores. -/
def emptyStore : Store := { docs := [], blobs := [], nextDocId := 0, nextUuid := 0, clock := 0 }

/-- A document that references a blob. -/
def sampleDoc : Doc :=
  { title := "Chocolate Cake"
    description := "Rich and moist."
    ingredients := .listVal ["flour", "sugar"]
    instructions := "Bake it."
    image_url := some "public:recipes/0_cake.png"
    image_blob_name := some "recipes/0_cake.png"
    created_at := some 0 }

/-- A store holding `sampleDoc` under id `doc0` whose blob is present. -/
def sampleStore : Store :=
  { docs := [("doc0", sampleDoc)], blobs := ["recipes/0_cake.png"],
    nextDocId := 1, nextUuid := 1, clock := 1 }

/-- `sampleStore` after the blob was removed externally from the bucket. -/
def sampleStoreNoBlob : Store := { sampleStore with blobs := [] }

/-- A sample uploaded file. -/
def sampleImage : Image :=
  { filename := "cake.png", content := "png-bytes", mimetype := "image/png" }

/-- The document `add_recipe envAll emptyStore "Chocolate Cake" ...` writes. -/
def addedDoc : Doc :=
  { title := "Chocolate Cake"
    description := "Rich"
    ingredients := .listVal ["flour", "sugar"]
    instructions := "Bake it."
    image_url := some "signed-v4:recipes/0_cake.png"
    image_blob_name := some "recipes/0_cake.png"
    created_at := some 0 }

/-- The recipe `add_recipe envAll emptyStore "Chocolate Cake" ...` returns. -/
def addedRecipe : Recipe :=
  { id := "doc0"
    title := "Chocolate Cake"
    description := "Rich"
    ingredients := ["flour", "sugar"]
    instructions := "Bake it."
    image_url := some "signed-v4:recipes/0_cake.png"
    created_at := some 0 }

/-- The store `add_recipe envAll emptyStore "Chocolate Cake" ...` leaves. -/
def addedStore : Store :=
  { docs := [("doc0", addedDoc)], blobs := ["recipes/0_cake.png"],
    nextDocId := 1, nextUuid := 1, clock := 1 }

/-- The document after `update_recipe envAll sampleStore "doc0" "New title" ...`. -/
def updatedDoc : Doc :=
  { title := "New title"
    description := "New desc"
    ingredients := .listVal ["water"]
    instructions := "Boil."
    image_url := some "public:recipes/0_cake.png"
    image_blob_name := some "recipes/0_cake.png"
    created_at := some 0 }

/-- The recipe `update_recipe envAll sampleStore "doc0" "New title" ...` returns. -/
def updatedRecipe : Recipe :=
  { id := "doc0"
    title := "New title"
    description := "New desc"
    ingredients := ["water"]
    instructions := "Boil."
    image_url := some "signed-v4:recipes/0_cake.png"
    created_at := some 0 }

/-- The store after `update_recipe envAll sampleStore "doc0" "New title" ...`. -/
def updatedStore : Store :=
  { docs := [("doc0", updatedDoc)], blobs := ["recipes/0_cake.png"],
    nextDocId := 1, nextUuid := 1, clock := 1 }

/-- A stored document's image reference is fully present or fully
absent: the URL and the blob identifier are both set or both unset. -/
def imageConsistentDoc (d : Doc) : Prop :=
  d.image_url.isSome = d.image_blob_name.isSome

/-- Every document in the collection satisfies `imageConsistentDoc`. -/
def storeConsistent (s : Store) : Prop :=
  ∀ p ∈ s.docs, imageConsistentDoc p.2

/-- An in-memory store holding one recipe with id `mem0`, built through
`InMemoryRecipeStorage.add_recipe` as the tests do. -/
def demoMemStore : MemStore :=
  (mem_add_recipe { recipes := [], nextId := 0, clock := 0 }
    "Veggie Curry" "Mild and creamy" "carrots" "Cook gently." none).2

/-! ## Helper lemmas: association list operations -/

theorem lookupDoc_removeDoc_self (l : List (String × Doc)) (i : String) :
    lookupDoc (removeDoc l i) i = none := by
  induction l with
  | nil => rfl
  | cons p rest ih =>
    by_cases h : p.1 = i
    · simpa [removeDoc, h] using ih
    · simpa [removeDoc, lookupDoc, h] using ih

theorem mem_removeDoc (l : List (String × Doc)) (i : String) (q : String × Doc)
    (h : q ∈ removeDoc l i) : q ∈ l := by
  induction l with
  | nil => simpa [removeDoc] using h
  | cons p rest ih =>
    by_cases hp : p.1 = i
    · simp only [removeDoc, if_pos hp] at h
      exact List.mem_cons_of_mem _ (ih h)
    · simp only [removeDoc, if_neg hp, List.mem_cons] at h
      rcases h with h | h
      · exact h ▸ List.mem_cons_self _ _
      · exact List.mem_cons_of_mem _ (ih h)

theorem lookupDoc_setDocFields_self (l : List (String × Doc)) (i : String) (d : Doc)
    (h : (lookupDoc l i).isSome = true) :
    lookupDoc (setDocFields l i d) i = some d := by
  induction l with
  | nil => simp [lookupDoc] at h
  | cons p rest ih =>
    by_cases hp : p.1 = i
    · simp [setDocFields, lookupDoc, hp]
    · simp only [lookupDoc, if_neg hp] at h
      simpa [setDocFields, lookupDoc, hp] using ih h

theorem lookupDoc_setDocFields_ne (l : List (String × Doc)) (i i' : String) (d : Doc)
    (h : i' ≠ i) : lookupDoc (setDocFields l i d) i' = lookupDoc l i' := by
  induction l with
  | nil => rfl
  | cons p rest ih =>
    simp only [setDocFields]
    by_cases hp : p.1 = i
    · have hpne : p.1 ≠ i' := fun hc => h (hc ▸ hp)
      rw [if_pos hp]
      simp [lookupDoc, hpne, ih]
    · rw [if_neg hp]
      simp only [lookupDoc, ih]

theorem mem_setDocFields (l : List (String × Doc)) (i : String) (d : Doc)
    (q : String × Doc) (h : q ∈ setDocFields l i d) : q.2 = d ∨ q ∈ l := by
  induction l with
  | nil => simp [setDocFields] at h
  | cons p rest ih =>
    by_cases hp : p.1 = i
    · simp only [setDocFields, if_pos hp, List.mem_cons] at h
      rcases h with h | h
      · exact Or.inl (by rw [h])
      · rcases ih h with h' | h'
        · exact Or.inl h'
        · exact Or.inr (List.mem_cons_of_mem _ h')
    · simp only [setDocFields, if_neg hp, List.mem_cons] at h
      rcases h with h | h
      · exact Or.inr (h ▸ List.mem_cons_self _ _)
      · rcases ih h with h' | h'
        · exact Or.inl h'
        · exact Or.inr (List.mem_cons_of_mem _ h')

theorem lookupDoc_mem (l : List (String × Doc)) (i : String) (d : Doc)
    (h : lookupDoc l i = some d) : (i, d) ∈ l := by
  induction l with
  | nil => simp [lookupDoc] at h
  | cons p rest ih =>
    by_cases hp : p.1 = i
    · simp only [lookupDoc, if_pos hp, Option.some.injEq] at h
      have hpd : p = (i, d) := by
        obtain ⟨a, b⟩ := p
        simp only [Prod.mk.injEq]
        exact ⟨hp, h⟩
      exact List.mem_cons.mpr (Or.inl hpd.symm)
    · simp only [lookupDoc, if_neg hp] at h
      exact List.mem_cons_of_mem _ (ih h)

/-! ## Helper lemmas: the store steps do not touch the other store -/

theorem docs_delete_blob_if_exists (env : StoreEnv) (s : Store) (bn : Option String) :
    (_delete_blob_if_exists env s bn).docs = s.docs := by
  unfold _delete_blob_if_exists
  cases bn with
  | none => rfl
  | some n => by_cases h : n = "" || !env.bucketConfigured <;> simp [h]

theorem addImageStep_ok_docs (env : StoreEnv) (s : Store) (image : Option Image)
    (u bn : Option String) (s1 : Store)
    (h : addImageStep env s image = .ok (u, bn, s1)) : s1.docs = s.docs := by
  cases image with
  | none =>
    simp only [addImageStep, Except.ok.injEq, Prod.mk.injEq] at h
    rw [← h.2.2]
  | some img =>
    simp only [addImageStep] at h
    split at h
    · split at h
      · simp at h
      · split at h
        · simp at h
        · simp only [Except.ok.injEq, Prod.mk.injEq] at h
          rw [← h.2.2]
    · simp only [Except.ok.injEq, Prod.mk.injEq] at h
      rw [← h.2.2]

theorem addImageStep_ok_consistent (env : StoreEnv) (s : Store) (image : Option Image)
    (u bn : Option String) (s1 : Store)
    (h : addImageStep env s image = .ok (u, bn, s1)) : u.isSome = bn.isSome := by
  cases image with
  | none =>
    simp only [addImageStep, Except.ok.injEq, Prod.mk.injEq] at h
    rw [← h.1, ← h.2.1]
  | some img =>
    simp only [addImageStep] at h
    split at h
    · split at h
      · simp at h
      · split at h
        · simp at h
        · simp only [Except.ok.injEq, Prod.mk.injEq] at h
          rw [← h.1, ← h.2.1]; rfl
    · simp only [Except.ok.injEq, Prod.mk.injEq] at h
      rw [← h.1, ← h.2.1]


theorem updateImageStep_ok_docs (env : StoreEnv) (s : Store)
    (cu cbn : Option String) (image : Option Image) (ri : Bool)
    (u bn : Option String) (s1 : Store)
    (h : updateImageStep env s cu cbn image ri = .ok (u, bn, s1)) : s1.docs = s.docs := by
  cases image with
  | none =>
    simp only [updateImageStep] at h
    split at h <;> simp only [Except.ok.injEq, Prod.mk.injEq] at h <;> rw [← h.2.2]
    · exact docs_delete_blob_if_exists env s cbn
  | some img =>
    simp only [updateImageStep] at h
    split at h
    · split at h
      · simp at h
      · split at h
        · simp at h
        · simp only [Except.ok.injEq, Prod.mk.injEq] at h
          rw [← h.2.2]
          show (match cbn with
            | some n => if n ≠ "" then _delete_blob_if_exists env s (some n) else s
            | none => s).docs = s.docs
          cases cbn with
          | none => rfl
          | some n =>
            by_cases hn : n = "" <;> simp [hn, docs_delete_blob_if_exists]
    · split at h <;> simp only [Except.ok.injEq, Prod.mk.injEq] at h <;> rw [← h.2.2]
      · exact docs_delete_blob_if_exists env s cbn

theorem updateImageStep_error_docs (env : StoreEnv) (s : Store)
    (cu cbn : Option String) (image : Option Image) (ri : Bool)
    (e : Err) (sErr : Store)
    (h : updateImageStep env s cu cbn image ri = .error (e, sErr)) : sErr.docs = s.docs := by
  cases image with
  | none =>
    simp only [updateImageStep] at h
    split at h <;> simp at h
  | some img =>
    simp only [updateImageStep] at h
    split at h
    · split at h
      · simp only [Except.error.injEq, Prod.mk.injEq] at h
        rw [← h.2]
      · split at h
        · simp only [Except.error.injEq, Prod.mk.injEq] at h
          rw [← h.2]
          show (match cbn with
            | some n => if n ≠ "" then _delete_blob_if_exists env s (some n) else s
            | none => s).docs = s.docs
          cases cbn with
          | none => rfl
          | some n =>
            by_cases hn : n = "" <;> simp [hn, docs_delete_blob_if_exists]
        · simp at h
    · split at h <;> simp at h

theorem updateImageStep_ok_consistent (env : StoreEnv) (s : Store)
    (cu cbn : Option String) (image : Option Image) (ri : Bool)
    (u bn : Option String) (s1 : Store)
    (h : updateImageStep env s cu cbn image ri = .ok (u, bn, s1)) :
    (u = cu ∧ bn = cbn) ∨ u.isSome = bn.isSome := by
  cases image with
  | none =>
    simp only [updateImageStep] at h
    split at h <;> simp only [Except.ok.injEq, Prod.mk.injEq] at h
    · exact Or.inr (by rw [← h.1, ← h.2.1])
    · exact Or.inl ⟨h.1.symm, h.2.1.symm⟩
  | some img =>
    simp only [updateImageStep] at h
    split at h
    · split at h
      · simp at h
      · split at h
        · simp at h
        · simp only [Except.ok.injEq, Prod.mk.injEq] at h
          exact Or.inr (by rw [← h.1, ← h.2.1]; rfl)
    · split at h <;> simp only [Except.ok.injEq, Prod.mk.injEq] at h
      · exact Or.inr (by rw [← h.1, ← h.2.1])
      · exact Or.inl ⟨h.1.symm, h.2.1.symm⟩

theorem findDoc_eq (s : Store) (i : String) : findDoc s i = lookupDoc s.docs i := rfl

theorem mem_deleteBlobEvents_isDeleteBlob (env : StoreEnv) (bn : Option String)
    (e : Event) (he : e ∈ deleteBlobEvents env bn) : e.isDeleteBlobCall = true := by
  cases bn with
  | none => simp [deleteBlobEvents] at he
  | some n =>
    by_cases hc : (n = "" || !env.bucketConfigured) = true
    · simp [deleteBlobEvents, hc] at he
    · simp only [deleteBlobEvents, if_neg hc, List.mem_singleton] at he
      rw [he]
      rfl

/-! ## Claim theorems -/

/-- C3: for every id not present in the store, `update_recipe` fails
with NotFound and the store after the call equals the store before it —
no document, blob or field is created or modified. -/
theorem update_nonexistent_notFound_unchanged (env : StoreEnv) (s : Store)
    (recipe_id title description ingredients_text instructions : String)
    (image : Option Image) (remove_image : Bool)
    (h : findDoc s recipe_id = none) :
    update_recipe env s recipe_id title description ingredients_text instructions
      image remove_image = (.error .notFound, s) := by
  unfold update_recipe
  rw [h]

theorem update_nonexistent_notFound_unchanged_witness :
    findDoc emptyStore "doc0" = none ∧
    update_recipe envAll emptyStore "doc0" "Cake" "Sweet" "flour" "Bake" none false
      = (.error .notFound, emptyStore) :=
  ⟨rfl, update_nonexistent_notFound_unchanged envAll emptyStore "doc0" "Cake" "Sweet"
    "flour" "Bake" none false rfl⟩

/-- C5: when `add_recipe` is called with an image payload and the image
path fails — no bucket configured, or the blob upload itself fails —
then `add_recipe` fails and the store (in particular its document
collection) is exactly the pre-state: no document is created. -/
theorem add_recipe_image_failure_no_doc (env : StoreEnv) (s : Store)
    (title description ingredients_text instructions : String) (img : Image)
    (himg : img.filename ≠ "")
    (hfail : env.bucketConfigured = false ∨ env.uploadOk = false) :
    ∃ e, add_recipe env s title description ingredients_text instructions (some img)
      = (.error e, s) := by
  have hne : (!img.filename.isEmpty) = true := by
    rw [Bool.not_eq_true', Bool.eq_false_iff]
    intro hc
    exact himg ((String.isEmpty_iff _).mp hc)
  by_cases hb : env.bucketConfigured = true
  · have hu : env.uploadOk = false := by
      rcases hfail with h' | h'
      · rw [h'] at hb; cases hb
      · exact h'
    exact ⟨.uploadFailed, by simp [add_recipe, addImageStep, hne, hb, hu]⟩
  · exact ⟨.storageUnavailable, by simp [add_recipe, addImageStep, hne, hb]⟩

theorem add_recipe_image_failure_no_doc_witness :
    sampleImage.filename ≠ "" ∧
    (envNoBucket.bucketConfigured = false ∨ envNoBucket.uploadOk = false) ∧
    (∃ e, add_recipe envNoBucket emptyStore "Cake" "Sweet" "flour" "Bake"
      (some sampleImage) = (.error e, emptyStore)) :=
  ⟨by decide, Or.inl rfl,
    add_recipe_image_failure_no_doc envNoBucket emptyStore "Cake" "Sweet" "flour" "Bake"
      sampleImage (by decide) (Or.inl rfl)⟩

/-- C6: for every existing recipe, `delete_recipe` first fetches the
document, then performs its blob deletions (if any), and deletes the
document only after that: the backend-call trace is the document fetch,
followed by blob-delete calls only, followed by the document delete. -/
theorem delete_recipe_blob_before_doc (env : StoreEnv) (s : Store)
    (recipe_id : String) (data : Doc) (h : findDoc s recipe_id = some data) :
    ∃ blobEvs, (∀ e ∈ blobEvs, e.isDeleteBlobCall = true) ∧
      (delete_recipe env s recipe_id).2.2 =
        Event.getDoc recipe_id :: (blobEvs ++ [Event.deleteDoc recipe_id]) := by
  refine ⟨deleteBlobEvents env data.image_blob_name, ?_, ?_⟩
  · intro e he
    exact mem_deleteBlobEvents_isDeleteBlob env data.image_blob_name e he
  · unfold delete_recipe
    rw [h]

theorem delete_recipe_blob_before_doc_witness :
    findDoc sampleStore "doc0" = some sampleDoc ∧
    (∃ blobEvs, (∀ e ∈ blobEvs, e.isDeleteBlobCall = true) ∧
      (delete_recipe envAll sampleStore "doc0").2.2 =
        Event.getDoc "doc0" :: (blobEvs ++ [Event.deleteDoc "doc0"])) :=
  ⟨rfl, delete_recipe_blob_before_doc envAll sampleStore "doc0" sampleDoc rfl⟩

/-- C7: deletion is asymmetric between the two stores: when the
document exists, `delete_recipe` succeeds even though the referenced
blob is already absent from the bucket; when the document is absent it
fails with NotFound — so deleting the same recipe twice succeeds the
first time and fails with NotFound the second time. -/
theorem delete_recipe_asymmetric (env : StoreEnv) (s : Store) (recipe_id : String)
    (data : Doc) (h : findDoc s recipe_id = some data)
    (hgone : ∀ n, data.image_blob_name = some n → n ∉ s.blobs) :
    (delete_recipe env s recipe_id).1 = .ok () ∧
    (delete_recipe env (delete_recipe env s recipe_id).2.1 recipe_id).1
      = .error .notFound ∧
    (∀ other_id, findDoc s other_id = none →
      (delete_recipe env s other_id).1 = .error .notFound) := by
  have hAbsent : ∀ (s' : Store) (i : String), findDoc s' i = none →
      (delete_recipe env s' i).1 = .error .notFound := by
    intro s' i hi
    unfold delete_recipe
    rw [hi]
  refine ⟨?_, ?_, fun other_id hother => hAbsent s other_id hother⟩
  · unfold delete_recipe
    rw [h]
  · have hpost : findDoc (delete_recipe env s recipe_id).2.1 recipe_id = none := by
      unfold delete_recipe
      rw [h]
      exact lookupDoc_removeDoc_self _ _
    exact hAbsent _ _ hpost

theorem delete_recipe_asymmetric_witness :
    findDoc sampleStoreNoBlob "doc0" = some sampleDoc ∧
    (∀ n, sampleDoc.image_blob_name = some n → n ∉ sampleStoreNoBlob.blobs) ∧
    ((delete_recipe envAll sampleStoreNoBlob "doc0").1 = .ok () ∧
     (delete_recipe envAll (delete_recipe envAll sampleStoreNoBlob "doc0").2.1 "doc0").1
       = .error .notFound ∧
     (∀ other_id, findDoc sampleStoreNoBlob other_id = none →
       (delete_recipe envAll sampleStoreNoBlob other_id).1 = .error .notFound)) :=
  ⟨rfl, fun n _ => List.not_mem_nil n,
    delete_recipe_asymmetric envAll sampleStoreNoBlob "doc0" sampleDoc rfl
      (fun n _ => List.not_mem_nil n)⟩

/-- C1: for every valid input (non-empty title, any description,
ingredients text and instructions, with or without image), a successful
`add_recipe` followed by `get_recipe` on the returned record's id
yields a record whose title, description, ingredients and instructions
equal those of the record `add_recipe` returned. -/
theorem add_then_get_roundtrip (env : StoreEnv) (s : Store)
    (title description ingredients_text instructions : String) (image : Option Image)
    (htitle : title ≠ "") (r : Recipe) (s' : Store)
    (h : add_recipe env s title description ingredients_text instructions image
          = (.ok r, s')) :
    ∃ r', get_recipe env s' r.id = .ok r' ∧ r'.title = r.title ∧
      r'.description = r.description ∧ r'.ingredients = r.ingredients ∧
      r'.instructions = r.instructions := by
  unfold add_recipe at h
  cases hstep : addImageStep env s image with
  | error e => rw [hstep] at h; simp at h
  | ok v =>
    obtain ⟨u, bn, s1⟩ := v
    rw [hstep] at h
    simp only [Except.ok.injEq, Prod.mk.injEq] at h
    obtain ⟨hr, hs⟩ := h
    subst hs
    refine ⟨r, ?_, rfl, rfl, rfl, rfl⟩
    rw [← hr]
    simp [get_recipe, findDoc, _doc_to_recipe, lookupDoc]

theorem add_then_get_roundtrip_witness :
    "Chocolate Cake" ≠ "" ∧
    add_recipe envAll emptyStore "Chocolate Cake" "Rich" "flour\nsugar" "Bake it."
        (some sampleImage)
      = (.ok addedRecipe, addedStore) ∧
    (∃ r', get_recipe envAll addedStore addedRecipe.id = .ok r' ∧
      r'.title = addedRecipe.title ∧ r'.description = addedRecipe.description ∧
      r'.ingredients = addedRecipe.ingredients ∧
      r'.instructions = addedRecipe.instructions) :=
  ⟨by decide, by rfl,
    add_then_get_roundtrip envAll emptyStore "Chocolate Cake" "Rich" "flour\nsugar"
      "Bake it." (some sampleImage) (by decide) addedRecipe addedStore (by rfl)⟩

/-- C9: a successful `update_recipe` never changes the record's id or
its created-at timestamp: the returned record carries the target id and
the old created-at, and the stored document keeps the old created-at
while its title, description and instructions are replaced by the
arguments. -/
theorem update_preserves_id_created_at (env : StoreEnv) (s : Store) (recipe_id : String)
    (title description ingredients_text instructions : String)
    (image : Option Image) (remove_image : Bool) (old : Doc) (r : Recipe) (s' : Store)
    (hOld : findDoc s recipe_id = some old)
    (h : update_recipe env s recipe_id title description ingredients_text instructions
          image remove_image = (.ok r, s')) :
    r.id = recipe_id ∧ r.created_at = old.created_at ∧
    ∃ dNew : Doc, findDoc s' recipe_id = some dNew ∧
      dNew.created_at = old.created_at ∧ dNew.title = title ∧
      dNew.description = description ∧ dNew.instructions = instructions := by
  unfold update_recipe at h
  split at h
  · rename_i heq
    rw [hOld] at heq
    cases heq
  · rename_i current_data heq
    rw [hOld] at heq
    injection heq with heq
    subst heq
    cases hstep : updateImageStep env s old.image_url old.image_blob_name image
        remove_image with
    | error p =>
      obtain ⟨e, sErr⟩ := p
      rw [hstep] at h
      simp at h
    | ok v =>
      obtain ⟨u, bn, s1⟩ := v
      rw [hstep] at h
      simp only [Except.ok.injEq, Prod.mk.injEq] at h
      obtain ⟨hr, hs⟩ := h
      have hdocs : s1.docs = s.docs :=
        updateImageStep_ok_docs env s old.image_url old.image_blob_name image
          remove_image u bn s1 hstep
      have hsome : (lookupDoc s1.docs recipe_id).isSome = true := by
        rw [hdocs]
        rw [findDoc_eq] at hOld
        rw [hOld]
        rfl
      subst hs
      refine ⟨by rw [← hr]; rfl, by rw [← hr]; rfl, ?_⟩
      exact ⟨_, lookupDoc_setDocFields_self s1.docs recipe_id _ hsome, rfl, rfl, rfl, rfl⟩

theorem update_preserves_id_created_at_witness :
    findDoc sampleStore "doc0" = some sampleDoc ∧
    update_recipe envAll sampleStore "doc0" "New title" "New desc" "water" "Boil."
        none false
      = (.ok updatedRecipe, updatedStore) ∧
    (updatedRecipe.id = "doc0" ∧ updatedRecipe.created_at = sampleDoc.created_at ∧
     ∃ dNew : Doc, findDoc updatedStore "doc0" = some dNew ∧
      dNew.created_at = sampleDoc.created_at ∧ dNew.title = "New title" ∧
      dNew.description = "New desc" ∧ dNew.instructions = "Boil.") :=
  ⟨rfl, by rfl,
    update_preserves_id_created_at envAll sampleStore "doc0" "New title" "New desc"
      "water" "Boil." none false sampleDoc updatedRecipe updatedStore rfl (by rfl)⟩

theorem storeConsistent_of_docs_eq (s1 s2 : Store) (h : s1.docs = s2.docs)
    (hs : storeConsistent s2) : storeConsistent s1 := by
  intro p hp
  exact hs p (h ▸ hp)

/-- C4: every repository operation (add, and update in each of its
three image branches, and delete) preserves the invariant that every
stored document has its image URL and its image blob identifier either
both set or both unset. -/
theorem repo_ops_preserve_image_consistency (env : StoreEnv) (s : Store)
    (hs : storeConsistent s) :
    (∀ title description ingredients_text instructions image,
      storeConsistent (add_recipe env s title description ingredients_text
        instructions image).2) ∧
    (∀ recipe_id title description ingredients_text instructions image remove_image,
      storeConsistent (update_recipe env s recipe_id title description
        ingredients_text instructions image remove_image).2) ∧
    (∀ recipe_id, storeConsistent (delete_recipe env s recipe_id).2.1) := by
  refine ⟨?_, ?_, ?_⟩
  · intro title description ingredients_text instructions image
    unfold add_recipe
    cases hstep : addImageStep env s image with
    | error e => exact hs
    | ok v =>
      obtain ⟨u, bn, s1⟩ := v
      have hdocs : s1.docs = s.docs := addImageStep_ok_docs env s image u bn s1 hstep
      intro p hp
      rcases List.mem_cons.mp hp with hpd | hpm
      · rw [hpd]
        show u.isSome = bn.isSome
        exact addImageStep_ok_consistent env s image u bn s1 hstep
      · exact hs p (hdocs ▸ hpm)
  · intro recipe_id title description ingredients_text instructions image remove_image
    unfold update_recipe
    cases hfind : findDoc s recipe_id with
    | none => exact hs
    | some old =>
      dsimp only
      cases hstep : updateImageStep env s old.image_url old.image_blob_name image
          remove_image with
      | error p =>
        obtain ⟨e, sErr⟩ := p
        exact storeConsistent_of_docs_eq sErr s
          (updateImageStep_error_docs env s old.image_url old.image_blob_name image
            remove_image e sErr hstep) hs
      | ok v =>
        obtain ⟨u, bn, s1⟩ := v
        have hdocs : s1.docs = s.docs :=
          updateImageStep_ok_docs env s old.image_url old.image_blob_name image
            remove_image u bn s1 hstep
        intro p hp
        rcases mem_setDocFields s1.docs recipe_id _ p hp with hpd | hpm
        · show p.2.image_url.isSome = p.2.image_blob_name.isSome
          rw [hpd]
          show u.isSome = bn.isSome
          rcases updateImageStep_ok_consistent env s old.image_url old.image_blob_name
              image remove_image u bn s1 hstep with ⟨hu, hbn⟩ | hcons
          · rw [hu, hbn]
            exact hs (recipe_id, old) (lookupDoc_mem s.docs recipe_id old hfind)
          · exact hcons
        · exact hs p (hdocs ▸ hpm)
  · intro recipe_id
    unfold delete_recipe
    cases hfind : findDoc s recipe_id with
    | none => exact hs
    | some data =>
      intro p hp
      have hmem := mem_removeDoc _ recipe_id p hp
      rw [docs_delete_blob_if_exists] at hmem
      exact hs p hmem

theorem repo_ops_preserve_image_consistency_witness :
    storeConsistent sampleStore ∧
    ((∀ title description ingredients_text instructions image,
      storeConsistent (add_recipe envAll sampleStore title description ingredients_text
        instructions image).2) ∧
    (∀ recipe_id title description ingredients_text instructions image remove_image,
      storeConsistent (update_recipe envAll sampleStore recipe_id title description
        ingredients_text instructions image remove_image).2) ∧
    (∀ recipe_id, storeConsistent (delete_recipe envAll sampleStore recipe_id).2.1)) :=
  have hs : storeConsistent sampleStore := by
    intro p hp
    rw [List.mem_singleton.mp hp]
    rfl
  ⟨hs, repo_ops_preserve_image_consistency envAll sampleStore hs⟩

theorem mem_insertByCreatedDesc (p q : String × Doc) (l : List (String × Doc))
    (h : q = p ∨ q ∈ l) : q ∈ insertByCreatedDesc p l := by
  induction l with
  | nil =>
    rcases h with h | h
    · rw [h]; exact List.mem_singleton_self p
    · cases h
  | cons a rest ih =>
    unfold insertByCreatedDesc
    by_cases hc : createdKey a ≤ createdKey p
    · rw [if_pos hc]
      rcases h with h | h
      · exact h ▸ List.mem_cons_self q _
      · exact List.mem_cons_of_mem _ h
    · rw [if_neg hc]
      rcases h with h | h
      · exact List.mem_cons_of_mem _ (ih (Or.inl h))
      · rcases List.mem_cons.mp h with h' | h'
        · exact h' ▸ List.mem_cons_self q _
        · exact List.mem_cons_of_mem _ (ih (Or.inr h'))

theorem mem_sortDocsDesc (l : List (String × Doc)) (q : String × Doc) (h : q ∈ l) :
    q ∈ sortDocsDesc l := by
  induction l with
  | nil => cases h
  | cons a rest ih =>
    rcases List.mem_cons.mp h with h' | h'
    · exact mem_insertByCreatedDesc a q _ (Or.inl h')
    · exact mem_insertByCreatedDesc a q _ (Or.inr (ih h'))

/-- C10: in the durable implementation, when a stored document carries
an image blob identifier and a bucket is configured, the recipe built
from it — as returned by `get_recipe`, and by `list_recipes` for every
stored document — carries an image URL freshly re-derived from the blob
(`_get_image_url`: signed, or public without signing credentials), and
the persisted `image_url` value is ignored. -/
theorem read_time_rederives_image_url (env : StoreEnv) (s : Store)
    (recipe_id : String) (data : Doc) (n : String)
    (hb : env.bucketConfigured = true)
    (hdoc : findDoc s recipe_id = some data)
    (hblob : data.image_blob_name = some n) (hn : n ≠ "") :
    (∃ r, get_recipe env s recipe_id = .ok r ∧
      r.image_url = some (_get_image_url env n)) ∧
    (∀ p ∈ s.docs, _doc_to_recipe env p.1 p.2 ∈ list_recipes env s) ∧
    (∀ u : Option String,
      _doc_to_recipe env recipe_id { data with image_url := u } =
        _doc_to_recipe env recipe_id data) := by
  refine ⟨⟨_doc_to_recipe env recipe_id data, ?_, ?_⟩, ?_, ?_⟩
  · unfold get_recipe
    rw [hdoc]
  · unfold _doc_to_recipe
    rw [hblob]
    simp [hn, hb]
  · intro p hp
    exact List.mem_map_of_mem _ (mem_sortDocsDesc s.docs p hp)
  · intro u
    unfold _doc_to_recipe
    dsimp only
    rw [hblob]
    simp [hn, hb]

theorem read_time_rederives_image_url_witness :
    envAll.bucketConfigured = true ∧
    findDoc sampleStore "doc0" = some sampleDoc ∧
    sampleDoc.image_blob_name = some "recipes/0_cake.png" ∧
    "recipes/0_cake.png" ≠ "" ∧
    ((∃ r, get_recipe envAll sampleStore "doc0" = .ok r ∧
      r.image_url = some (_get_image_url envAll "recipes/0_cake.png")) ∧
    (∀ p ∈ sampleStore.docs,
      _doc_to_recipe envAll p.1 p.2 ∈ list_recipes envAll sampleStore) ∧
    (∀ u : Option String,
      _doc_to_recipe envAll "doc0" { sampleDoc with image_url := u } =
        _doc_to_recipe envAll "doc0" sampleDoc)) :=
  ⟨rfl, rfl, rfl, by decide,
    read_time_rederives_image_url envAll sampleStore "doc0" sampleDoc
      "recipes/0_cake.png" rfl rfl rfl (by decide)⟩

/-- C2 (settled at the code level): the two implementations are NOT
interchangeable behind the repository protocol for the §6 contract's
`update_recipe` with the `remove_image` flag.  The route handler always
passes the `remove_image` keyword; `FirestoreRecipeStorage` accepts the
call, but `InMemoryRecipeStorage.update_recipe` has no such parameter,
so the very call raises `TypeError` even though the target recipe
exists — neither the updated record nor NotFound. -/
theorem inMemory_update_rejects_route_call :
    (mem_get_recipe demoMemStore "mem0").isOk = true ∧
    (mem_update_recipe demoMemStore
        (routeUpdateCall "mem0" "Spicy Veggie Curry" "Now with a kick"
          "carrots\npotatoes" "Add spices." none false)).1
      = .error .typeError ∧
    (firestore_update_call envAll sampleStore
        (routeUpdateCall "doc0" "Spicy Veggie Curry" "Now with a kick"
          "carrots\npotatoes" "Add spices." none false)).1.isOk = true :=
  ⟨rfl, rfl, rfl⟩

/-! ## Lemmas towards ingredient-parsing idempotence -/

theorem dropWhile_dropWhile {α : Type} (p : α → Bool) (l : List α) :
    (l.dropWhile p).dropWhile p = l.dropWhile p := by
  induction l with
  | nil => rfl
  | cons a rest ih =>
    by_cases h : p a = true
    · rw [List.dropWhile_cons_of_pos h]
      exact ih
    · rw [List.dropWhile_cons_of_neg h, List.dropWhile_cons_of_neg h]

theorem dropWhile_eq_self_of_head {α : Type} (p : α → Bool) (l : List α)
    (h : ∀ a, l.head? = some a → p a = false) : l.dropWhile p = l := by
  cases l with
  | nil => rfl
  | cons a t =>
    have ha := h a rfl
    rw [List.dropWhile_cons_of_neg (by simp [ha])]

theorem strip_subset (l : List Char) : ∀ c ∈ strip l, c ∈ l := by
  intro c h
  unfold strip at h
  rw [List.mem_reverse] at h
  have h2 := List.dropWhile_subset isPySpace h
  rw [List.mem_reverse] at h2
  exact List.dropWhile_subset isPySpace h2

theorem strip_idempotent (l : List Char) : strip (strip l) = strip l := by
  have hb : (strip l).dropWhile isPySpace = strip l := by
    apply dropWhile_eq_self_of_head
    intro a ha
    unfold strip at ha
    rw [List.head?_reverse] at ha
    obtain ⟨t0, ht0⟩ :=
      List.dropWhile_suffix (l := (l.dropWhile isPySpace).reverse) isPySpace
    have hlast : ((l.dropWhile isPySpace).reverse).getLast? = some a := by
      rw [← ht0, List.getLast?_append, ha]
      rfl
    rw [List.getLast?_reverse] at hlast
    have h2 := List.head?_dropWhile_not isPySpace l
    rw [hlast] at h2
    simpa using h2
  have hstep : strip (strip l)
      = (((strip l).dropWhile isPySpace).reverse.dropWhile isPySpace).reverse := rfl
  rw [hstep, hb]
  unfold strip
  rw [List.reverse_reverse, dropWhile_dropWhile]

theorem splitlinesAux_cons_not_boundary (x : Char) (cs acc : List Char) (b : Bool)
    (hx : isLineBoundary x = false) :
    splitlinesAux (x :: cs) acc b = splitlinesAux cs (x :: acc) false := by
  have hn : x ≠ '\n' := by
    intro hc
    rw [hc] at hx
    simp [isLineBoundary] at hx
  simp [splitlinesAux, hx, hn]

theorem splitlinesAux_cons_newline (cs acc : List Char) :
    splitlinesAux ('\n' :: cs) acc false = acc.reverse :: splitlinesAux cs [] false := by
  simp [splitlinesAux, isLineBoundary]

theorem splitlinesAux_no_boundary (cs : List Char) :
    ∀ (acc : List Char) (b : Bool), (∀ c ∈ acc, isLineBoundary c = false) →
    ∀ l ∈ splitlinesAux cs acc b, ∀ c ∈ l, isLineBoundary c = false := by
  induction cs with
  | nil =>
    intro acc b hacc l hl c hc
    unfold splitlinesAux at hl
    by_cases he : acc.isEmpty
    · simp [he] at hl
    · simp only [if_neg he, List.mem_singleton] at hl
      subst hl
      exact hacc c (List.mem_reverse.mp hc)
  | cons x cs ih =>
    intro acc b hacc l hl c hc
    unfold splitlinesAux at hl
    by_cases h1 : (b && x = '\n') = true
    · rw [if_pos h1] at hl
      exact ih acc false hacc l hl c hc
    · rw [if_neg h1] at hl
      by_cases h2 : isLineBoundary x = true
      · rw [if_pos h2] at hl
        rcases List.mem_cons.mp hl with hl' | hl'
        · subst hl'
          exact hacc c (List.mem_reverse.mp hc)
        · exact ih [] (x = '\r') (fun c hc => absurd hc (List.not_mem_nil c)) l hl' c hc
      · rw [if_neg h2] at hl
        refine ih (x :: acc) false ?_ l hl c hc
        intro c' hc'
        rcases List.mem_cons.mp hc' with hc' | hc'
        · subst hc'
          exact Bool.eq_false_iff.mpr h2
        · exact hacc c' hc'

theorem splitlines_no_boundary (t : List Char) :
    ∀ l ∈ splitlines t, ∀ c ∈ l, isLineBoundary c = false :=
  splitlinesAux_no_boundary t [] false (fun c hc => absurd hc (List.not_mem_nil c))

theorem splitlinesAux_no_boundary_eq (a : List Char)
    (ha : ∀ c ∈ a, isLineBoundary c = false) :
    ∀ acc : List Char,
    splitlinesAux a acc false
      = if acc.isEmpty && a.isEmpty then [] else [acc.reverse ++ a] := by
  induction a with
  | nil =>
    intro acc
    by_cases he : acc.isEmpty
    · simp [splitlinesAux, he]
    · simp [splitlinesAux, he]
  | cons x a ih =>
    intro acc
    have hx := ha x (List.mem_cons_self x a)
    rw [splitlinesAux_cons_not_boundary x a acc false hx]
    rw [ih (fun c hc => ha c (List.mem_cons_of_mem _ hc)) (x :: acc)]
    simp

theorem splitlinesAux_append_newline (a : List Char)
    (ha : ∀ c ∈ a, isLineBoundary c = false) :
    ∀ (rest acc : List Char),
    splitlinesAux (a ++ '\n' :: rest) acc false
      = (acc.reverse ++ a) :: splitlinesAux rest [] false := by
  induction a with
  | nil =>
    intro rest acc
    rw [List.nil_append, splitlinesAux_cons_newline]
    simp
  | cons x a ih =>
    intro rest acc
    have hx := ha x (List.mem_cons_self x a)
    rw [List.cons_append, splitlinesAux_cons_not_boundary x _ acc false hx,
        ih (fun c hc => ha c (List.mem_cons_of_mem _ hc)) rest (x :: acc)]
    simp

theorem splitlines_joinNL (els : List (List Char))
    (hbf : ∀ e ∈ els, ∀ c ∈ e, isLineBoundary c = false)
    (hne : ∀ e ∈ els, e ≠ []) :
    splitlines (joinNL els) = els := by
  induction els with
  | nil => rfl
  | cons e rest ih =>
    cases rest with
    | nil =>
      show splitlinesAux (joinNL [e]) [] false = [e]
      have hji : joinNL [e] = e := rfl
      rw [hji, splitlinesAux_no_boundary_eq e (hbf e (List.mem_singleton_self e)) []]
      have he : e.isEmpty = false := by
        cases e with
        | nil => exact absurd rfl (hne [] (List.mem_singleton_self []))
        | cons c cs => rfl
      simp [he]
    | cons e2 rest2 =>
      show splitlinesAux (joinNL (e :: e2 :: rest2)) [] false = e :: e2 :: rest2
      have hji : joinNL (e :: e2 :: rest2) = e ++ '\n' :: joinNL (e2 :: rest2) := rfl
      rw [hji,
        splitlinesAux_append_newline e (hbf e (List.mem_cons_self e _)) (joinNL (e2 :: rest2)) []]
      have ih2 := ih (fun e' he' => hbf e' (List.mem_cons_of_mem _ he'))
        (fun e' he' => hne e' (List.mem_cons_of_mem _ he'))
      unfold splitlines at ih2
      rw [ih2]
      simp

theorem map_eq_self_of_eq {α : Type} (f : α → α) (l : List α)
    (h : ∀ a ∈ l, f a = a) : l.map f = l := by
  induction l with
  | nil => rfl
  | cons a r ih =>
    rw [List.map_cons, h a (List.mem_cons_self a r),
        ih (fun a ha => h a (List.mem_cons_of_mem _ ha))]

theorem filter_nonempty_eq_self (l : List (List Char)) (h : ∀ a ∈ l, a ≠ []) :
    l.filter (fun x => !x.isEmpty) = l :=
  List.filter_eq_self.mpr (fun a ha => by
    cases a with
    | nil => exact absurd rfl (h [] ha)
    | cons c cs => rfl)

theorem parseIngredientsChars_elems (t : List Char) :
    ∀ e ∈ parseIngredientsChars t,
      strip e = e ∧ e ≠ [] ∧ ∀ c ∈ e, isLineBoundary c = false := by
  intro e he
  unfold parseIngredientsChars at he
  rw [List.mem_filter] at he
  obtain ⟨hmem, hfilt⟩ := he
  rw [List.mem_map] at hmem
  obtain ⟨line, hline, hstrip⟩ := hmem
  refine ⟨?_, ?_, ?_⟩
  · rw [← hstrip]
    exact strip_idempotent line
  · intro hc
    rw [hc] at hfilt
    simp at hfilt
  · intro c hc
    have hcl : c ∈ line := strip_subset line c (by rw [hstrip]; exact hc)
    exact splitlines_no_boundary t line hline c hcl

theorem parseIngredientsChars_joinNL (t : List Char) :
    parseIngredientsChars (joinNL (parseIngredientsChars t))
      = parseIngredientsChars t := by
  have hprops := parseIngredientsChars_elems t
  have hbf : ∀ e ∈ parseIngredientsChars t, ∀ c ∈ e, isLineBoundary c = false :=
    fun e he => (hprops e he).2.2
  have hne : ∀ e ∈ parseIngredientsChars t, e ≠ [] := fun e he => (hprops e he).2.1
  show ((splitlines (joinNL (parseIngredientsChars t))).map strip).filter
      (fun l => !l.isEmpty) = parseIngredientsChars t
  rw [splitlines_joinNL _ hbf hne,
      map_eq_self_of_eq strip _ (fun e he => (hprops e he).1)]
  exact filter_nonempty_eq_self _ hne

/-- C8: ingredient parsing is idempotent: for every input text, parsing
produces a sequence of trimmed, non-blank lines, and parsing the
newline-joined form of an already-parsed sequence reproduces exactly
that sequence. -/
theorem parse_ingredients_idempotent (t : String) :
    (∀ e ∈ _parse_ingredients t, e ≠ "" ∧ strip e.data = e.data) ∧
    _parse_ingredients (joinLines (_parse_ingredients t)) = _parse_ingredients t := by
  constructor
  · intro e he
    unfold _parse_ingredients at he
    rw [List.mem_map] at he
    obtain ⟨l, hl, hml⟩ := he
    have hp := parseIngredientsChars_elems t.data l hl
    constructor
    · intro hc
      rw [← hml] at hc
      have hnil : l = [] := by
        have := congrArg String.data hc
        simpa using this
      exact hp.2.1 hnil
    · rw [← hml]
      exact hp.1
  · unfold _parse_ingredients joinLines
    have hdm : ∀ ls : List (List Char), (ls.map String.mk).map String.data = ls := by
      intro ls
      induction ls with
      | nil => rfl
      | cons a r ih => simp [ih]
    rw [hdm]
    show (parseIngredientsChars (joinNL (parseIngredientsChars t.data))).map String.mk
      = (parseIngredientsChars t.data).map String.mk
    rw [parseIngredientsChars_joinNL]

theorem parse_ingredients_idempotent_witness :
    (∀ e ∈ _parse_ingredients "  flour \n\n sugar\r\n",
      e ≠ "" ∧ strip e.data = e.data) ∧
    _parse_ingredients (joinLines (_parse_ingredients "  flour \n\n sugar\r\n"))
      = _parse_ingredients "  flour \n\n sugar\r\n" :=
  parse_ingredients_idempotent "  flour \n\n sugar\r\n"

end Receptsamling
